import Mathlib

/-!
Shallow embedding of the dessert-shop cost manager (`main.py`): the
ingredient and recipe-line tables, the cost-derivation pipeline (pandas
left merge, per-row line cost, group-by sum), the time-cost record
refresh and form-submit paths, the order totalizer, the CSV loader's
encoding fallback, and the store-level ingredient delete.

Numeric columns are modelled over `ℚ`.  A pandas cell that can be NaN
(the unit price attached to a recipe line by a left merge against a
missing ingredient, and everything derived from it) is modelled as
`Option ℚ`, with `none` for NaN; arithmetic on such cells propagates
`none` exactly as NaN propagates.
-/

/-- A row of 食材清單.csv: ingredient name, unit, unit price (單價). -/
structure Ingredient where
  name : String
  unitName : String
  unitPrice : ℚ
deriving DecidableEq

/-- A row of 品項清單.csv: item name, ingredient name, quantity (用量). -/
structure RecipeLine where
  itemName : String
  ingredientName : String
  quantity : ℚ
deriving DecidableEq

/-- One left-merge output block for a single recipe line, as produced by
`items.merge(ingredients, on="食材名稱", how="left")`: one output row per
matching ingredient row, in ingredient-table order, and a single row with a
missing (NaN) unit price when no ingredient matches. -/
def mergeBlock (l : RecipeLine) (ings : List Ingredient) : List (RecipeLine × Option ℚ) :=
  match ings.filter (fun i => i.name = l.ingredientName) with
  | [] => [(l, none)]
  | ms => ms.map (fun i => (l, some i.unitPrice))

/-- The full left merge `items.merge(ingredients, on="食材名稱", how="left")`,
blocks in recipe-line order. -/
def mergeLeft : List RecipeLine → List Ingredient → List (RecipeLine × Option ℚ)
  | [], _ => []
  | l :: ls, ings => mergeBlock l ings ++ mergeLeft ls ings

/-- The merged column 單行成本 = 用量 × 單價 of one merged row; NaN (missing
price) propagates. -/
def rowLineCost (row : RecipeLine × Option ℚ) : Option ℚ :=
  row.2.map (fun u => row.1.quantity * u)

/-- The group sum `merged.groupby("品項名稱")["單行成本"].sum()` for one group
key: pandas excludes NaN cells from a group sum (and an empty or all-NaN group
sums to 0 under the default `min_count=0`), so a missing line cost contributes
nothing. -/
def groupSum (merged : List (RecipeLine × Option ℚ)) (t : String) : ℚ :=
  ((merged.filter (fun row => row.1.itemName = t)).map (fun row => (rowLineCost row).getD 0)).sum

/-- The derived 品項成本 of item `t` (lines 317-321 / 417-421 of `main.py`):
left merge, per-row 單行成本, group-by sum over 品項名稱. -/
def computeItemCost (items : List RecipeLine) (ings : List Ingredient) (t : String) : ℚ :=
  groupSum (mergeLeft items ings) t

/-- The item-cost table `merged.groupby("品項名稱")["單行成本"].sum()`, one row
per distinct item name of the recipe-line table.  (pandas emits group keys
sorted; we keep first-occurrence order, which is likewise deterministic — no
claim below depends on the row order of this table, only on its entries.) -/
def itemCosts (items : List RecipeLine) (ings : List Ingredient) : List (String × ℚ) :=
  ((items.map RecipeLine.itemName).dedup).map (fun t => (t, computeItemCost items ings t))

/-- The matched contributions of one recipe line: the sum of 用量 × 單價 over
the ingredient rows matching its ingredient name (0 when none match, since the
single NaN row such a line contributes is excluded from the group sum). -/
def lineCostSum (ings : List Ingredient) (l : RecipeLine) : ℚ :=
  ((ings.filter (fun i => i.name = l.ingredientName)).map (fun i => l.quantity * i.unitPrice)).sum

/-- Follows the spec's invariant as written (`item_cost = Σ(quantity_i ×
unit_price_i)` over all RecipeLines sharing item_name, joined against current
Ingredient prices): each line of the item contributes its quantity times the
unit price of the ingredient it names, looked up by the ingredient table's
unique name key. -/
def specItemCost (items : List RecipeLine) (ings : List Ingredient) (t : String) : ℚ :=
  ((items.filter (fun l => l.itemName = t)).map
    (fun l => l.quantity *
      (((ings.find? (fun i => i.name = l.ingredientName)).map Ingredient.unitPrice).getD 0))).sum

/-- Scaling the quantity of every recipe line of one item by `k`, leaving the
other items' lines alone. -/
def scaleItemQuantities (k : ℚ) (t : String) (items : List RecipeLine) : List RecipeLine :=
  items.map (fun l => if l.itemName = t then ⟨l.itemName, l.ingredientName, k * l.quantity⟩ else l)

/-- A row of 時間成本清單.csv: 品項名稱, 製作時間(分鐘), 時間成本比例(%),
品項成本, 建議售價.  The cost and price cells are `Option ℚ` because the
left merge of the refresh writes NaN into them for an item with no recipe
lines. -/
structure TimeCostRecord where
  itemName : String
  minutes : ℚ
  ratioPct : ℚ
  cost : Option ℚ
  price : Option ℚ
deriving DecidableEq

/-- The displayed 利潤 column (line 372 of `main.py`):
建議售價 − 品項成本, with NaN propagating before the display's `fillna(0)`. -/
def rowProfit (row : TimeCostRecord) : Option ℚ :=
  match row.price, row.cost with
  | some p, some c => some (p - c)
  | _, _ => none

/-- The refresh applied to one existing time-cost row by
`update_all_time_costs` (lines 424-431): the merged 品項成本 replaces the old
one (missing when the item has no recipe lines), 時間成本比例(%) becomes
製作時間 × 比例, and 建議售價 becomes 品項成本 × (1 + 比例/100), with NaN
propagating. -/
def refreshRow (r : ℚ) (items : List RecipeLine) (ings : List Ingredient)
    (row : TimeCostRecord) : TimeCostRecord :=
  let c : Option ℚ := ((itemCosts items ings).find? (fun p => p.1 = row.itemName)).map Prod.snd
  let pct : ℚ := row.minutes * r
  ⟨row.itemName, row.minutes, pct, c, c.map (fun cv => cv + cv * (pct / 100))⟩

/-- The bulk refresh `update_all_time_costs(per_minute_percentage)`
(lines 408-444): reload the three record sets; if either the recipe-line or
the ingredient table is empty, warn and leave the time-cost store untouched;
if the time-cost store is empty, seed it from the item-cost table with zero
production time and 建議售價 = 品項成本; otherwise left-merge the item costs
into it (`validate="one_to_one"` raises — modelled as `none`, in which case
nothing is saved — unless the merge keys are unique on both sides) and
recompute every derived column.  The result is saved as a whole record set. -/
def update_all_time_costs (r : ℚ) (tc : List TimeCostRecord)
    (items : List RecipeLine) (ings : List Ingredient) : Option (List TimeCostRecord) :=
  if items = [] ∨ ings = [] then some tc
  else if tc = [] then
    some ((itemCosts items ings).map (fun p => ⟨p.1, 0, 0, some p.2, some p.2⟩))
  else if (tc.map TimeCostRecord.itemName).Nodup ∧
      ((itemCosts items ings).map Prod.fst).Nodup then
    some (tc.map (refreshRow r items ings))
  else none

/-- Dedup step `drop_duplicates(subset=["品項名稱"], keep="last")` (line 356): keep each
row that no later row shares an item name with. -/
def dropDupKeepLast : List TimeCostRecord → List TimeCostRecord
  | [] => []
  | row :: rest =>
      if rest.any (fun s => s.itemName = row.itemName) then dropDupKeepLast rest
      else row :: dropDupKeepLast rest

/-- The submitted add/update branch of `manage_time_cost` (lines 340-357):
with a positive production time, look the chosen item's cost up in the
item-cost table (the `.values[0]` access raises on a miss — modelled as
`none`; the UI only offers names from that table), build the new row with
時間成本比例(%) = 製作時間 × 比例 and 建議售價 = 品項成本 × (1 + 比例/100),
append it and drop older rows with the same item name; with a non-positive
production time nothing changes. -/
def manage_time_cost_submit (r : ℚ) (tc : List TimeCostRecord) (items : List RecipeLine)
    (ings : List Ingredient) (name : String) (m : ℚ) : Option (List TimeCostRecord) :=
  if 0 < m then
    ((itemCosts items ings).find? (fun p => p.1 = name)).map (fun p =>
      dropDupKeepLast (tc ++ [⟨name, m, m * r, some p.2, some (p.2 + p.2 * ((m * r) / 100))⟩]))
  else some tc

/-- Outcome of one underlying `pd.read_csv` attempt at a fixed encoding: a
parsed table, a `UnicodeDecodeError`, or any other exception (missing file,
parse error, ...). -/
inductive ReadOutcome where
  | ok (table : List (List String))
  | decodeError
  | otherError
deriving DecidableEq

/-- Loader `load_data` (lines 73-85): try `utf-8-sig` first; on a
`UnicodeDecodeError` retry with `big5` inside that handler; any other failure
of the first read is caught by the later `except Exception` clause and yields
an empty table.  A failure of the big5 retry happens inside the
`UnicodeDecodeError` handler, where the sibling `except Exception` clause does
not apply, so it propagates to the caller (`Except.error`). -/
def load_data (utf8Read big5Read : ReadOutcome) : Except Unit (List (List String)) :=
  match utf8Read with
  | .ok t => .ok t
  | .otherError => .ok []
  | .decodeError =>
    match big5Read with
    | .ok t => .ok t
    | .decodeError => .error ()
    | .otherError => .error ()

/-- The one failure of the totalizer loop (lines 471-479): `.values[0]` on the
lookup of a selected item raises when the item is absent from the price
table; the spec names this failure ItemNotPriced. -/
inductive TotalizeError where
  | itemNotPriced (itemName : String)
deriving DecidableEq

/-- A row of the totalizer's result set (建議售價與利潤結果.csv): 品項名稱,
數量, 總成本, 總建議售價, 總利潤.  The value cells are `Option ℚ` because a
price-table row can itself carry missing cost/price cells. -/
structure OrderRow where
  itemName : String
  qty : ℕ
  totalCost : Option ℚ
  totalPrice : Option ℚ
  totalProfit : Option ℚ
deriving DecidableEq

/-- The totalizer loop of `calculate_selling_price_and_profit`
(lines 468-491): for each selection in order, skip it when its quantity is
not positive; otherwise look the item up in the time-cost table (first
matching row), multiply its per-unit 品項成本 and 建議售價 by the quantity
and set 總利潤 = 總建議售價 − 總成本; a lookup miss raises, discarding all
results. -/
def totalize (tc : List TimeCostRecord) :
    List (String × ℕ) → Except TotalizeError (List OrderRow)
  | [] => .ok []
  | (n, q) :: rest =>
    if 0 < q then
      match tc.find? (fun row => row.itemName = n) with
      | none => .error (.itemNotPriced n)
      | some row =>
        match totalize tc rest with
        | .error e => .error e
        | .ok rs =>
          .ok (⟨n, q, row.cost.map (fun c => c * (q : ℚ)),
                row.price.map (fun p => p * (q : ℚ)),
                match row.price.map (fun p => p * (q : ℚ)),
                    row.cost.map (fun c => c * (q : ℚ)) with
                | some a, some b => some (a - b)
                | _, _ => none⟩ :: rs)
    else totalize tc rest

/-- Follows the spec's totalizer contract for one selected line: look the
per-unit values up in the price table and multiply each by the quantity, the
line profit being the line price minus the line cost. -/
def specLine (tc : List TimeCostRecord) (s : String × ℕ) : OrderRow :=
  match tc.find? (fun row => row.itemName = s.1) with
  | none => ⟨s.1, s.2, none, none, none⟩
  | some row =>
      ⟨s.1, s.2, row.cost.map (fun c => c * (s.2 : ℚ)), row.price.map (fun p => p * (s.2 : ℚ)),
        match row.price.map (fun p => p * (s.2 : ℚ)), row.cost.map (fun c => c * (s.2 : ℚ)) with
        | some a, some b => some (a - b)
        | _, _ => none⟩

/-- Modelled from the spec: the repository's near-duplicate copy of the source
file (the flat-wage pricing variant is not present under src/) computes the
per-unit labor cost of Variant A as (productionMinutes × wage/60) /
splitQuantity. -/
def perUnitLaborCost (minutes wage split : ℚ) : ℚ :=
  (minutes * (wage / 60)) / split

/-- Modelled from the spec: Variant A per-unit cost, itemCost / splitQuantity. -/
def perUnitCostA (itemCost split : ℚ) : ℚ :=
  itemCost / split

/-- Modelled from the spec: Variant A suggested price,
perUnitCost + perUnitLaborCost. -/
def suggestedPriceA (itemCost minutes wage split : ℚ) : ℚ :=
  perUnitCostA itemCost split + perUnitLaborCost minutes wage split

/-- Modelled from the spec: Variant A profit, suggestedPrice − perUnitCost. -/
def profitA (itemCost minutes wage split : ℚ) : ℚ :=
  suggestedPriceA itemCost minutes wage split - perUnitCostA itemCost split

/-- The six CSV stores of the application, taken together as one state. -/
structure Stores where
  ingredients : List Ingredient
  items : List RecipeLine
  timeCost : List TimeCostRecord
  ratioPerMinute : ℚ
  unitNames : List String
  sellingResults : List OrderRow
deriving DecidableEq

/-- The delete branch of `manage_ingredients` (lines 156-167): keep the
ingredient rows whose 食材名稱 differs from the chosen name and write only
食材清單.csv; no other store is touched. -/
def delete_ingredient (s : Stores) (n : String) : Stores :=
  { s with ingredients := s.ingredients.filter (fun i => ¬ (i.name = n)) }

theorem groupSum_append (a b : List (RecipeLine × Option ℚ)) (t : String) :
    groupSum (a ++ b) t = groupSum a t + groupSum b t := by
  unfold groupSum
  rw [List.filter_append, List.map_append, List.sum_append]

theorem groupSum_block (l : RecipeLine) (ings : List Ingredient) (t : String) :
    groupSum (mergeBlock l ings) t = if l.itemName = t then lineCostSum ings l else 0 := by
  unfold mergeBlock lineCostSum
  by_cases ht : l.itemName = t
  · cases h : ings.filter (fun i => i.name = l.ingredientName) with
    | nil => simp [groupSum, rowLineCost, ht]
    | cons m ms =>
        simp [groupSum, List.filter_map, List.map_map, Function.comp_def, rowLineCost, ht]
  · cases h : ings.filter (fun i => i.name = l.ingredientName) with
    | nil => simp [groupSum, rowLineCost, ht]
    | cons m ms =>
        simp [groupSum, List.filter_map, List.map_map, Function.comp_def, rowLineCost, ht]

theorem computeItemCost_eq_sum (items : List RecipeLine) (ings : List Ingredient) (t : String) :
    computeItemCost items ings t =
      ((items.filter (fun l => l.itemName = t)).map (lineCostSum ings)).sum := by
  induction items with
  | nil => rfl
  | cons l ls ih =>
      unfold computeItemCost mergeLeft
      rw [groupSum_append, groupSum_block]
      by_cases ht : l.itemName = t
      · simp [ht, List.filter_cons, computeItemCost] at ih ⊢
        rw [ih]
      · simp [ht, List.filter_cons, computeItemCost] at ih ⊢
        rw [ih]

theorem filter_name_eq_single :
    ∀ (ings : List Ingredient), (ings.map Ingredient.name).Nodup →
      ∀ i ∈ ings, ings.filter (fun j => j.name = i.name) = [i] := by
  intro ings
  induction ings with
  | nil => intro _ i hi; cases hi
  | cons j rest ih =>
      intro hnd i hi
      rw [List.map_cons, List.nodup_cons] at hnd
      rcases List.mem_cons.mp hi with hi | hi
      · subst hi
        rw [List.filter_cons_of_pos (by simp)]
        have hrest : rest.filter (fun k => k.name = i.name) = [] := by
          rw [List.filter_eq_nil_iff]
          intro k hk
          simp only [decide_eq_true_eq]
          intro hkname
          exact hnd.1 (hkname ▸ List.mem_map_of_mem Ingredient.name hk)
        rw [hrest]
      · have hj : ¬ (j.name = i.name) := by
          intro hjn
          exact hnd.1 (hjn ▸ List.mem_map_of_mem Ingredient.name hi)
        rw [List.filter_cons_of_neg (by simpa using hj)]
        exact ih hnd.2 i hi

theorem find?_name_eq :
    ∀ (ings : List Ingredient), (ings.map Ingredient.name).Nodup →
      ∀ i ∈ ings, ings.find? (fun j => j.name = i.name) = some i := by
  intro ings
  induction ings with
  | nil => intro _ i hi; cases hi
  | cons j rest ih =>
      intro hnd i hi
      rw [List.map_cons, List.nodup_cons] at hnd
      rcases List.mem_cons.mp hi with hi | hi
      · subst hi
        rw [List.find?_cons_of_pos _ (by simp)]
      · have hj : ¬ (j.name = i.name) := by
          intro hjn
          exact hnd.1 (hjn ▸ List.mem_map_of_mem Ingredient.name hi)
        rw [List.find?_cons_of_neg _ (by simpa using hj)]
        exact ih hnd.2 i hi

/-- C2: for every ingredient table (with its unique-name key) and recipe-line
table in which every referenced ingredient exists, the derived cost of an item
equals the sum over that item's recipe lines of quantity × unit_price. -/
theorem item_cost_eq_recipe_sum (items : List RecipeLine) (ings : List Ingredient) (t : String)
    (hnd : (ings.map Ingredient.name).Nodup)
    (hex : ∀ l ∈ items, ∃ i ∈ ings, i.name = l.ingredientName) :
    computeItemCost items ings t = specItemCost items ings t := by
  rw [computeItemCost_eq_sum, specItemCost]
  refine congrArg List.sum (List.map_congr_left ?_)
  intro l hl
  obtain ⟨i, hi, hin⟩ := hex l (List.mem_of_mem_filter hl)
  have hfilter := filter_name_eq_single ings hnd i hi
  have hfind := find?_name_eq ings hnd i hi
  rw [hin] at hfilter hfind
  rw [lineCostSum, hfilter, hfind]
  simp

/-- C2 witness: ingredient {flour, kg, 20.0} and single recipe line
{"cookie", flour, 0.5} derive an item cost of 10.0. -/
theorem item_cost_eq_recipe_sum_witness :
    computeItemCost [⟨"cookie", "flour", 1/2⟩] [⟨"flour", "kg", 20⟩] "cookie" = 10 := by
  rw [item_cost_eq_recipe_sum [⟨"cookie", "flour", 1/2⟩] [⟨"flour", "kg", 20⟩] "cookie"
    (by simp) ?_]
  · norm_num [specItemCost, List.filter_cons, List.find?]
  · intro l hl
    rw [List.mem_singleton] at hl
    subst hl
    exact ⟨⟨"flour", "kg", 20⟩, by simp, rfl⟩

/-- C3 (amended): a recipe line whose ingredient is absent from the ingredient
table does carry a missing price in its merged row (the row-level 單行成本 is
missing, as displayed at lines 185-190), but the item-cost aggregation excludes
missing line costs from its group sum, so prepending such a line leaves the
derived item cost unchanged — the unmatched line contributes zero and the
derived cost stays numeric. -/
theorem unmatched_line_missing_but_skipped (ings : List Ingredient) (l : RecipeLine)
    (items : List RecipeLine) (t : String)
    (habs : ings.filter (fun i => i.name = l.ingredientName) = []) :
    (l, (none : Option ℚ)) ∈ mergeLeft (l :: items) ings ∧
    computeItemCost (l :: items) ings t = computeItemCost items ings t := by
  have hblock : mergeBlock l ings = [(l, none)] := by
    unfold mergeBlock
    rw [habs]
  constructor
  · show (l, (none : Option ℚ)) ∈ mergeBlock l ings ++ mergeLeft items ings
    rw [hblock]
    exact List.mem_append_left _ (List.mem_singleton_self _)
  · show groupSum (mergeBlock l ings ++ mergeLeft items ings) t = computeItemCost items ings t
    rw [hblock, groupSum_append]
    have hz : groupSum [(l, (none : Option ℚ))] t = 0 := by
      by_cases ht : l.itemName = t <;> simp [groupSum, rowLineCost, List.filter_cons, ht]
    rw [hz, zero_add]
    rfl

/-- C3 witness: a concrete unmatched line (flour is absent from the ingredient
table) yields a merged row with a missing price while leaving the derived cost
of its item unchanged. -/
theorem unmatched_line_missing_but_skipped_witness :
    ((⟨"cookie", "flour", 1/2⟩ : RecipeLine), (none : Option ℚ)) ∈
      mergeLeft [⟨"cookie", "flour", 1/2⟩, ⟨"cookie", "sugar", 2⟩] [⟨"sugar", "kg", 5⟩] ∧
    computeItemCost [⟨"cookie", "flour", 1/2⟩, ⟨"cookie", "sugar", 2⟩] [⟨"sugar", "kg", 5⟩]
        "cookie" =
      computeItemCost [⟨"cookie", "sugar", 2⟩] [⟨"sugar", "kg", 5⟩] "cookie" :=
  unmatched_line_missing_but_skipped [⟨"sugar", "kg", 5⟩] ⟨"cookie", "flour", 1/2⟩
    [⟨"cookie", "sugar", 2⟩] "cookie" (by simp [List.filter_cons])

/-- C3 counterexample: with ingredient table [{sugar, kg, 5}] and recipe lines
[{cookie, flour, 0.5}, {cookie, sugar, 2}], the flour line is unmatched and its
merged row carries a missing price, yet the item-cost derivation for "cookie"
returns the numeric sum 10 in which the unmatched line is treated as zero; an
item all of whose lines are unmatched derives the numeric value 0, never a
missing one. -/
theorem groupby_sum_numeric_despite_missing_cx :
    mergeLeft [⟨"cookie", "flour", 1/2⟩, ⟨"cookie", "sugar", 2⟩] [⟨"sugar", "kg", 5⟩] =
      [(⟨"cookie", "flour", 1/2⟩, none), (⟨"cookie", "sugar", 2⟩, some 5)] ∧
    computeItemCost [⟨"cookie", "flour", 1/2⟩, ⟨"cookie", "sugar", 2⟩] [⟨"sugar", "kg", 5⟩]
      "cookie" = 10 ∧
    computeItemCost [⟨"pie", "flour", 1⟩] [⟨"sugar", "kg", 5⟩] "pie" = 0 := by
  have hm : mergeLeft [⟨"cookie", "flour", 1/2⟩, ⟨"cookie", "sugar", 2⟩] [⟨"sugar", "kg", 5⟩] =
      [(⟨"cookie", "flour", 1/2⟩, none), (⟨"cookie", "sugar", 2⟩, some 5)] := by
    simp [mergeLeft, mergeBlock, List.filter_cons]
  have hm2 : mergeLeft [⟨"pie", "flour", 1⟩] [⟨"sugar", "kg", 5⟩] =
      [(⟨"pie", "flour", 1⟩, none)] := by
    simp [mergeLeft, mergeBlock, List.filter_cons]
  refine ⟨hm, ?_, ?_⟩
  · rw [computeItemCost, hm]
    norm_num [groupSum, rowLineCost, List.filter_cons]
  · rw [computeItemCost, hm2]
    norm_num [groupSum, rowLineCost, List.filter_cons]

theorem sum_map_mul_left_rat {α : Type} (l : List α) (f : α → ℚ) (k : ℚ) :
    (l.map (fun x => k * f x)).sum = k * (l.map f).sum := by
  induction l with
  | nil => simp
  | cons a l ih => simp [ih, mul_add]

theorem lineCostSum_scale (ings : List Ingredient) (l : RecipeLine) (k : ℚ) :
    lineCostSum ings ⟨l.itemName, l.ingredientName, k * l.quantity⟩ = k * lineCostSum ings l := by
  unfold lineCostSum
  rw [← sum_map_mul_left_rat]
  congr 1
  refine List.map_congr_left ?_
  intro i _
  ring

theorem filter_scaleItemQuantities (k : ℚ) (t : String) (items : List RecipeLine) :
    (scaleItemQuantities k t items).filter (fun l => l.itemName = t) =
      (items.filter (fun l => l.itemName = t)).map
        (fun l => ⟨l.itemName, l.ingredientName, k * l.quantity⟩) := by
  induction items with
  | nil => rfl
  | cons l ls ih =>
      by_cases ht : l.itemName = t
      · simpa [scaleItemQuantities, List.filter_cons, ht] using ih
      · simpa [scaleItemQuantities, List.filter_cons, ht] using ih

/-- C7: the derived item cost is linear in the quantities: multiplying the
quantity of every recipe line of an item by `k ≥ 0` multiplies the derived
cost of that item by `k`. -/
theorem item_cost_linear_in_quantities (items : List RecipeLine) (ings : List Ingredient)
    (t : String) (k : ℚ) (_hk : 0 ≤ k) :
    computeItemCost (scaleItemQuantities k t items) ings t = k * computeItemCost items ings t := by
  rw [computeItemCost_eq_sum, computeItemCost_eq_sum, filter_scaleItemQuantities, List.map_map]
  rw [← sum_map_mul_left_rat]
  congr 1
  refine List.map_congr_left ?_
  intro l _
  exact lineCostSum_scale ings l k

/-- C7 witness: tripling the single cookie line's quantity triples the derived
cookie cost. -/
theorem item_cost_linear_in_quantities_witness :
    computeItemCost (scaleItemQuantities 3 "cookie" [⟨"cookie", "flour", 1/2⟩])
        [⟨"flour", "kg", 20⟩] "cookie" =
      3 * computeItemCost [⟨"cookie", "flour", 1/2⟩] [⟨"flour", "kg", 20⟩] "cookie" :=
  item_cost_linear_in_quantities [⟨"cookie", "flour", 1/2⟩] [⟨"flour", "kg", 20⟩] "cookie" 3
    (by norm_num)

theorem self_mem_dropDupKeepLast :
    ∀ (l : List TimeCostRecord) (row : TimeCostRecord), row ∈ dropDupKeepLast (l ++ [row]) := by
  intro l row
  induction l with
  | nil => simp [dropDupKeepLast]
  | cons s rest ih =>
      rw [List.cons_append]
      unfold dropDupKeepLast
      by_cases h : (rest ++ [row]).any (fun x => x.itemName = s.itemName)
      · simpa [h] using ih
      · simp only [h]
        exact List.mem_cons_of_mem s ih

theorem find?_fst_eq {β : Type} :
    ∀ (l : List (String × β)), (l.map Prod.fst).Nodup →
      ∀ p ∈ l, l.find? (fun q => q.1 = p.1) = some p := by
  intro l
  induction l with
  | nil => intro _ p hp; cases hp
  | cons q rest ih =>
      intro hnd p hp
      rw [List.map_cons, List.nodup_cons] at hnd
      rcases List.mem_cons.mp hp with hp | hp
      · subst hp
        rw [List.find?_cons_of_pos _ (by simp)]
      · have hq : ¬ (q.1 = p.1) := by
          intro hqn
          exact hnd.1 (hqn ▸ List.mem_map_of_mem Prod.fst hp)
        rw [List.find?_cons_of_neg _ (by simpa using hq)]
        exact ih hnd.2 p hp

theorem itemCosts_fst_nodup (items : List RecipeLine) (ings : List Ingredient) :
    ((itemCosts items ings).map Prod.fst).Nodup := by
  rw [itemCosts, List.map_map]
  simpa [Function.comp_def] using (items.map RecipeLine.itemName).nodup_dedup

theorem itemCosts_ne_nil (items : List RecipeLine) (ings : List Ingredient)
    (h : items ≠ []) : itemCosts items ings ≠ [] := by
  rw [itemCosts]
  simp only [ne_eq, List.map_eq_nil_iff, List.dedup_eq_nil]
  intro hcon
  exact h hcon

/-- C1: the ratio-variant pricing — both the bulk refresh and the time-cost
add/update submit — computes 時間成本比例(%) = 製作時間 × 每分鐘比例 and
建議售價 = 品項成本 + 品項成本 × (比例/100) on every row it produces, and the
displayed 利潤 of such a row is 建議售價 − 品項成本. -/
theorem ratio_variant_pricing (r : ℚ) (tc : List TimeCostRecord)
    (items : List RecipeLine) (ings : List Ingredient) :
    (∀ tcOut, items ≠ [] → ings ≠ [] →
      update_all_time_costs r tc items ings = some tcOut →
      ∀ row ∈ tcOut, row.ratioPct = row.minutes * r ∧
        ∀ c, row.cost = some c →
          row.price = some (c + c * (row.ratioPct / 100)) ∧
          rowProfit row = some ((c + c * (row.ratioPct / 100)) - c)) ∧
    (∀ (name : String) (m c : ℚ) (tcOut : List TimeCostRecord), 0 < m →
      (itemCosts items ings).find? (fun p => p.1 = name) = some (name, c) →
      manage_time_cost_submit r tc items ings name m = some tcOut →
      (⟨name, m, m * r, some c, some (c + c * ((m * r) / 100))⟩ : TimeCostRecord) ∈ tcOut ∧
      rowProfit ⟨name, m, m * r, some c, some (c + c * ((m * r) / 100))⟩ =
        some ((c + c * ((m * r) / 100)) - c)) := by
  constructor
  · intro tcOut hitems hings h row hrow
    unfold update_all_time_costs at h
    rw [if_neg (by simp [hitems, hings])] at h
    by_cases htc : tc = []
    · rw [if_pos htc] at h
      have htcOut : tcOut = (itemCosts items ings).map (fun p => ⟨p.1, 0, 0, some p.2, some p.2⟩) := by
        injection h with h
        exact h.symm
      subst htcOut
      obtain ⟨p, _, hrowp⟩ := List.mem_map.mp hrow
      subst hrowp
      refine ⟨by simp, ?_⟩
      intro c hc
      simp only [Option.some.injEq] at hc
      subst hc
      constructor
      · simp only [Option.some.injEq]
        norm_num
      · rw [show rowProfit ⟨p.1, 0, 0, some p.2, some p.2⟩ = some (p.2 - p.2) from rfl]
        norm_num
    · rw [if_neg htc] at h
      by_cases hnd : (tc.map TimeCostRecord.itemName).Nodup ∧
          ((itemCosts items ings).map Prod.fst).Nodup
      · rw [if_pos hnd] at h
        have htcOut : tcOut = tc.map (refreshRow r items ings) := by
          injection h with h
          exact h.symm
        subst htcOut
        obtain ⟨row0, _, hrow0⟩ := List.mem_map.mp hrow
        subst hrow0
        refine ⟨rfl, ?_⟩
        intro c hc
        unfold refreshRow at hc ⊢
        simp only at hc ⊢
        rw [hc]
        exact ⟨rfl, rfl⟩
      · rw [if_neg hnd] at h
        exact absurd h (by simp)
  · intro name m c tcOut hm hfind h
    unfold manage_time_cost_submit at h
    rw [if_pos hm, hfind] at h
    simp only [Option.map_some', Option.some.injEq] at h
    subst h
    exact ⟨self_mem_dropDupKeepLast tc _, rfl⟩

/-- Evaluation helper: the cookie/flour tables derive an item-cost table with
the single row ("cookie", 10). -/
theorem itemCosts_cookie_flour :
    itemCosts [⟨"cookie", "flour", 1/2⟩] [⟨"flour", "kg", 20⟩] = [("cookie", 10)] := by
  have hcost : computeItemCost [⟨"cookie", "flour", 1/2⟩] [⟨"flour", "kg", 20⟩] "cookie" = 10 := by
    have hm : mergeLeft [⟨"cookie", "flour", 1/2⟩] [⟨"flour", "kg", 20⟩] =
        [(⟨"cookie", "flour", 1/2⟩, some 20)] := by
      simp [mergeLeft, mergeBlock, List.filter_cons]
    rw [computeItemCost, hm]
    norm_num [groupSum, rowLineCost, List.filter_cons]
  rw [itemCosts, List.map_cons, List.map_nil,
    List.dedup_cons_of_not_mem (List.not_mem_nil _), List.dedup_nil, List.map_cons,
    List.map_nil, hcost]

/-- C1 witness: with 每分鐘比例 2, production time 5 and item cost 10, the
submitted row carries 時間成本比例 10%, 建議售價 11 and displayed 利潤 1. -/
theorem ratio_variant_pricing_witness :
    (⟨"cookie", 5, 5 * 2, some 10, some (10 + 10 * ((5 * 2) / 100))⟩ : TimeCostRecord) ∈
      ([⟨"cookie", 5, 10, some 10, some 11⟩] : List TimeCostRecord) ∧
    rowProfit ⟨"cookie", 5, 5 * 2, some 10, some (10 + 10 * ((5 * 2) / 100))⟩ =
      some ((10 + 10 * ((5 * 2) / 100)) - 10) := by
  refine (ratio_variant_pricing 2 [] [⟨"cookie", "flour", 1/2⟩] [⟨"flour", "kg", 20⟩]).2
    "cookie" 5 10 [⟨"cookie", 5, 10, some 10, some 11⟩] (by norm_num) ?_ ?_
  · rw [itemCosts_cookie_flour]
    simp [List.find?]
  · rw [manage_time_cost_submit, if_pos (by norm_num : (0:ℚ) < 5), itemCosts_cookie_flour]
    simp only [List.find?, Option.map_some]
    norm_num [dropDupKeepLast]

/-- C8: with the ingredient table, the recipe-line table and the per-minute
ratio fixed, running the bulk refresh a second time on the record set the
first run produced reproduces that record set exactly. -/
theorem bulk_refresh_idempotent (r : ℚ) (tc tcOut : List TimeCostRecord)
    (items : List RecipeLine) (ings : List Ingredient)
    (h : update_all_time_costs r tc items ings = some tcOut) :
    update_all_time_costs r tcOut items ings = some tcOut := by
  unfold update_all_time_costs at h ⊢
  by_cases hie : items = [] ∨ ings = []
  · rw [if_pos hie] at h ⊢
  · rw [if_neg hie] at h ⊢
    have hitems : items ≠ [] := by
      intro hcon
      exact hie (Or.inl hcon)
    by_cases htc : tc = []
    · rw [if_pos htc] at h
      have htcOut : tcOut = (itemCosts items ings).map (fun p => ⟨p.1, 0, 0, some p.2, some p.2⟩) := by
        injection h with h
        exact h.symm
      subst htcOut
      have hne : (itemCosts items ings).map
          (fun p => (⟨p.1, 0, 0, some p.2, some p.2⟩ : TimeCostRecord)) ≠ [] := by
        simpa using itemCosts_ne_nil items ings hitems
      rw [if_neg hne]
      have hnames : (((itemCosts items ings).map
          (fun p => (⟨p.1, 0, 0, some p.2, some p.2⟩ : TimeCostRecord))).map
            TimeCostRecord.itemName).Nodup := by
        rw [List.map_map]
        simpa [Function.comp_def] using itemCosts_fst_nodup items ings
      rw [if_pos ⟨hnames, itemCosts_fst_nodup items ings⟩]
      congr 1
      rw [List.map_map]
      refine List.map_congr_left ?_
      intro p hp
      show refreshRow r items ings ⟨p.1, 0, 0, some p.2, some p.2⟩ = ⟨p.1, 0, 0, some p.2, some p.2⟩
      unfold refreshRow
      have hfind := find?_fst_eq (itemCosts items ings) (itemCosts_fst_nodup items ings) p hp
      simp only [hfind, Option.map_some']
      refine TimeCostRecord.mk.injEq .. ▸ ?_
      norm_num
    · rw [if_neg htc] at h
      by_cases hnd : (tc.map TimeCostRecord.itemName).Nodup ∧
          ((itemCosts items ings).map Prod.fst).Nodup
      · rw [if_pos hnd] at h
        have htcOut : tcOut = tc.map (refreshRow r items ings) := by
          injection h with h
          exact h.symm
        subst htcOut
        have hne : tc.map (refreshRow r items ings) ≠ [] := by
          simpa using htc
        rw [if_neg hne]
        have hnames : ((tc.map (refreshRow r items ings)).map TimeCostRecord.itemName).Nodup := by
          rw [List.map_map]
          have hcomp : TimeCostRecord.itemName ∘ refreshRow r items ings =
              TimeCostRecord.itemName := rfl
          rw [hcomp]
          exact hnd.1
        rw [if_pos ⟨hnames, hnd.2⟩]
        congr 1
        rw [List.map_map]
        refine List.map_congr_left ?_
        intro row _
        rfl
      · rw [if_neg hnd] at h
        exact absurd h (by simp)

/-- C8 witness: seeding the empty time-cost store from the cookie/flour tables
and refreshing the result again leaves it unchanged. -/
theorem bulk_refresh_idempotent_witness :
    update_all_time_costs 2 [⟨"cookie", 0, 0, some 10, some 10⟩]
      [⟨"cookie", "flour", 1/2⟩] [⟨"flour", "kg", 20⟩] =
      some [⟨"cookie", 0, 0, some 10, some 10⟩] :=
  bulk_refresh_idempotent 2 [] [⟨"cookie", 0, 0, some 10, some 10⟩]
    [⟨"cookie", "flour", 1/2⟩] [⟨"flour", "kg", 20⟩]
    (by rw [update_all_time_costs, if_neg (by simp), if_pos rfl, itemCosts_cookie_flour]
        simp)

/-- C4 (amended): loading first reads as BOM-prefixed UTF-8 and falls back to
big5 on a decode failure; a non-decode failure of the initial read yields an
empty record set; but a failure of the big5 fallback itself (a second decode
failure or any other error during the retry) propagates to the caller. -/
theorem load_data_encoding_fallback (t : List (List String)) (b : ReadOutcome) :
    load_data (.ok t) b = .ok t ∧
    load_data .otherError b = .ok [] ∧
    load_data .decodeError (.ok t) = .ok t ∧
    load_data .decodeError .decodeError = .error () ∧
    load_data .decodeError .otherError = .error () :=
  ⟨rfl, rfl, rfl, rfl, rfl⟩

/-- C4 counterexample: a file whose bytes decode neither as UTF-8 nor as big5
(for instance the two bytes 0xFF 0xFF) makes the fallback read raise inside
the `UnicodeDecodeError` handler, and that exception propagates out of
`load_data` instead of producing an empty record set — so the claim that no
call to the load operation raises an exception is false. -/
theorem load_data_raises_cx : load_data .decodeError .decodeError = .error () := rfl

/-- C6 (amended): when every selected item is present in the price table, the
totalizer emits exactly one result line per selection with positive quantity
(line totals = per-unit value × quantity, line profit = line price − line
cost), skips zero-quantity selections entirely and preserves the input
selection order; it produces no further rows — in particular no grand-total
aggregation across the selected lines. -/
theorem totalize_line_results (tc : List TimeCostRecord) (sels : List (String × ℕ))
    (hcov : ∀ s ∈ sels, (tc.find? (fun row => row.itemName = s.1)).isSome) :
    totalize tc sels = .ok ((sels.filter (fun s => 0 < s.2)).map (specLine tc)) := by
  induction sels with
  | nil => rfl
  | cons s rest ih =>
      obtain ⟨n, q⟩ := s
      have hs := hcov (n, q) (List.mem_cons_self _ _)
      rw [Option.isSome_iff_exists] at hs
      obtain ⟨row, hrow⟩ := hs
      have hrest := ih (fun x hx => hcov x (List.mem_cons_of_mem _ hx))
      by_cases hq : 0 < q
      · simp only [totalize, if_pos hq, hrow, hrest]
        rw [List.filter_cons_of_pos (by simpa using hq), List.map_cons]
        simp only [specLine, hrow]
      · simp only [totalize, if_neg hq, hrest]
        rw [List.filter_cons_of_neg (by simpa using hq)]

/-- C6 witness: totalizing [("cookie", 3)] against per-unit cost 10 and
price 106 yields the single line with cost 30, price 318 and profit 288. -/
theorem totalize_line_results_witness :
    totalize [⟨"cookie", 30, 60, some 10, some 106⟩] [("cookie", 3)] =
      .ok [⟨"cookie", 3, some 30, some 318, some 288⟩] := by
  rw [totalize_line_results [⟨"cookie", 30, 60, some 10, some 106⟩] [("cookie", 3)]
    (by intro s hs; rw [List.mem_singleton] at hs; subst hs; simp [List.find?])]
  norm_num [specLine, List.filter_cons, List.find?]

/-- C6 counterexample: totalizing two selections produces exactly the two
per-line rows; the cost, price and profit totals aggregated across the
selected lines (here 50, 100 and 50) appear nowhere in the result set, so the
totalizer does not accumulate grand totals across lines. -/
theorem totalize_no_grand_totals_cx :
    totalize [⟨"a", 1, 1, some 10, some 20⟩, ⟨"b", 1, 1, some 20, some 40⟩]
        [("a", 1), ("b", 2)] =
      .ok [⟨"a", 1, some 10, some 20, some 10⟩, ⟨"b", 2, some 40, some 80, some 40⟩] ∧
    some (50 : ℚ) ∉ ([⟨"a", 1, some 10, some 20, some 10⟩,
      ⟨"b", 2, some 40, some 80, some 40⟩] : List OrderRow).map OrderRow.totalCost ∧
    some (100 : ℚ) ∉ ([⟨"a", 1, some 10, some 20, some 10⟩,
      ⟨"b", 2, some 40, some 80, some 40⟩] : List OrderRow).map OrderRow.totalPrice ∧
    some (50 : ℚ) ∉ ([⟨"a", 1, some 10, some 20, some 10⟩,
      ⟨"b", 2, some 40, some 80, some 40⟩] : List OrderRow).map OrderRow.totalProfit := by
  refine ⟨?_, by norm_num, by norm_num, by norm_num⟩
  have ha : List.find? (fun row => row.itemName = "a")
      [(⟨"a", 1, 1, some 10, some 20⟩ : TimeCostRecord), ⟨"b", 1, 1, some 20, some 40⟩] =
      some ⟨"a", 1, 1, some 10, some 20⟩ := by
    rw [List.find?_cons_of_pos _ (by simp)]
  have hb : List.find? (fun row => row.itemName = "b")
      [(⟨"a", 1, 1, some 10, some 20⟩ : TimeCostRecord), ⟨"b", 1, 1, some 20, some 40⟩] =
      some ⟨"b", 1, 1, some 20, some 40⟩ := by
    rw [List.find?_cons_of_neg _ (by simp), List.find?_cons_of_pos _ (by simp)]
  norm_num [totalize, ha, hb]

/-- C5: if some selection with positive quantity names an item absent from the
price table, the totalizer fails with an ItemNotPriced error (the lookup
raising on the empty selection) and returns no result set at all — in
particular no zero-valued row for that item. -/
theorem totalize_unpriced_fails (tc : List TimeCostRecord) (sels : List (String × ℕ))
    (n : String) (q : ℕ) (hmem : (n, q) ∈ sels) (hq : 0 < q)
    (habs : ∀ row ∈ tc, ¬ row.itemName = n) :
    (∃ m, totalize tc sels = .error (.itemNotPriced m)) ∧
    ∀ rows, totalize tc sels ≠ .ok rows := by
  have hfail : ∃ m, totalize tc sels = .error (.itemNotPriced m) := by
    induction sels with
    | nil => cases hmem
    | cons s rest ih =>
        obtain ⟨sn, sq⟩ := s
        rcases List.mem_cons.mp hmem with hhd | htl
        · rw [Prod.mk.injEq] at hhd
          obtain ⟨h1, h2⟩ := hhd
          subst h1
          subst h2
          have hfind : tc.find? (fun row => row.itemName = n) = none := by
            rw [List.find?_eq_none]
            intro row hrow
            simpa using habs row hrow
          refine ⟨n, ?_⟩
          simp only [totalize, if_pos hq, hfind]
        · obtain ⟨m, hm⟩ := ih htl
          by_cases hsq : 0 < sq
          · cases hfind : tc.find? (fun row => row.itemName = sn) with
            | none =>
                refine ⟨sn, ?_⟩
                simp only [totalize, if_pos hsq, hfind]
            | some row =>
                refine ⟨m, ?_⟩
                simp only [totalize, if_pos hsq, hfind, hm]
          · refine ⟨m, ?_⟩
            simp only [totalize, if_neg hsq]
            exact hm
  refine ⟨hfail, ?_⟩
  obtain ⟨m, hm⟩ := hfail
  intro rows hrows
  rw [hm] at hrows
  cases hrows

/-- C5 witness: selecting one brownie against an empty price table fails with
ItemNotPriced and yields no result rows. -/
theorem totalize_unpriced_fails_witness :
    (∃ m, totalize [] [("brownie", 1)] = .error (.itemNotPriced m)) ∧
    ∀ rows, totalize [] [("brownie", 1)] ≠ .ok rows :=
  totalize_unpriced_fails [] [("brownie", 1)] "brownie" 1 (List.mem_singleton_self _)
    (by norm_num) (by intro row hrow; cases hrow)

/-- C9: the flat-hourly-wage/split-quantity variant satisfies the four Variant
A formulas (its profit always collapsing to the per-unit labor cost), and on
the spec's scenario — item cost 10, production 30 minutes, hourly wage 192,
split quantity 1 — yields per-minute wage 3.2, labor-per-unit 96, suggested
price 106 and profit 96. -/
theorem variant_a_pricing :
    (∀ c m w s : ℚ, suggestedPriceA c m w s = perUnitCostA c s + perUnitLaborCost m w s ∧
      profitA c m w s = perUnitLaborCost m w s) ∧
    perUnitLaborCost 1 192 1 = 3.2 ∧
    perUnitLaborCost 30 192 1 = 96 ∧
    perUnitCostA 10 1 = 10 ∧
    suggestedPriceA 10 30 192 1 = 106 ∧
    profitA 10 30 192 1 = 96 := by
  refine ⟨fun c m w s => ⟨rfl, ?_⟩, ?_, ?_, ?_, ?_, ?_⟩ <;>
    norm_num [profitA, suggestedPriceA, perUnitCostA, perUnitLaborCost]

theorem mem_mergeLeft_none :
    ∀ (items : List RecipeLine) (ings : List Ingredient) (l : RecipeLine),
      l ∈ items → ings.filter (fun i => i.name = l.ingredientName) = [] →
      (l, (none : Option ℚ)) ∈ mergeLeft items ings := by
  intro items
  induction items with
  | nil => intro _ _ h; cases h
  | cons x rest ih =>
      intro ings l hl habs
      rcases List.mem_cons.mp hl with hl | hl
      · subst hl
        have hblock : mergeBlock l ings = [(l, none)] := by
          unfold mergeBlock
          rw [habs]
        rw [show mergeLeft (l :: rest) ings = mergeBlock l ings ++ mergeLeft rest ings from rfl,
          hblock]
        exact List.mem_append_left _ (List.mem_singleton_self _)
      · rw [show mergeLeft (x :: rest) ings = mergeBlock x ings ++ mergeLeft rest ings from rfl]
        exact List.mem_append_right _ (ih ings l hl habs)

/-- C10: deleting an ingredient by name rewrites only the ingredient store —
the recipe-line store and every other store are left unchanged — so recipe
lines referencing the deleted ingredient survive, and the next cost
derivation joins each of them to a merged row with a missing price. -/
theorem delete_ingredient_frame (s : Stores) (n : String) :
    (delete_ingredient s n).items = s.items ∧
    (delete_ingredient s n).timeCost = s.timeCost ∧
    (delete_ingredient s n).ratioPerMinute = s.ratioPerMinute ∧
    (delete_ingredient s n).unitNames = s.unitNames ∧
    (delete_ingredient s n).sellingResults = s.sellingResults ∧
    (delete_ingredient s n).ingredients = s.ingredients.filter (fun i => ¬ (i.name = n)) ∧
    ∀ l ∈ s.items, l.ingredientName = n →
      (l, (none : Option ℚ)) ∈
        mergeLeft (delete_ingredient s n).items (delete_ingredient s n).ingredients := by
  refine ⟨rfl, rfl, rfl, rfl, rfl, rfl, ?_⟩
  intro l hl hln
  have habs : ((delete_ingredient s n).ingredients).filter
      (fun i => i.name = l.ingredientName) = [] := by
    rw [List.filter_eq_nil_iff]
    intro i hi
    simp only [delete_ingredient, List.mem_filter, decide_not, Bool.not_eq_eq_eq_not,
      Bool.not_true, decide_eq_false_iff_not] at hi
    simp only [decide_eq_true_eq]
    intro hiname
    exact hi.2 (hln ▸ hiname)
  exact mem_mergeLeft_none _ _ l hl habs

/-- C10 witness: deleting flour leaves the cookie recipe line in place and its
next merge produces a missing price for it. -/
theorem delete_ingredient_frame_witness :
    (delete_ingredient ⟨[⟨"flour", "kg", 20⟩], [⟨"cookie", "flour", 1/2⟩], [], 2, [], []⟩
        "flour").items = [⟨"cookie", "flour", 1/2⟩] ∧
    ((⟨"cookie", "flour", 1/2⟩ : RecipeLine), (none : Option ℚ)) ∈
      mergeLeft
        (delete_ingredient ⟨[⟨"flour", "kg", 20⟩], [⟨"cookie", "flour", 1/2⟩], [], 2, [], []⟩
          "flour").items
        (delete_ingredient ⟨[⟨"flour", "kg", 20⟩], [⟨"cookie", "flour", 1/2⟩], [], 2, [], []⟩
          "flour").ingredients := by
  have h := delete_ingredient_frame
    ⟨[⟨"flour", "kg", 20⟩], [⟨"cookie", "flour", 1/2⟩], [], 2, [], []⟩ "flour"
  exact ⟨h.1, h.2.2.2.2.2.2 ⟨"cookie", "flour", 1/2⟩ (List.mem_singleton_self _) rfl⟩
